import Mathlib

/-!
# Verification of the astro-vitesse plugin / virtual-module core

Shallow embedding of the plugin runtime (`runPlugins` and its `updateConfig`,
`addIntegration`, `injectTranslations` callbacks), the virtual-module registry
(`vitePluginVitesseUserConfig` with its `resolveId` / `load` hooks), the
translation loader (`createTranslationSystemFromFs`) and the navigation-item
schemas (`NavBarItemSchema` and friends).

JavaScript objects are embedded as association lists `List (String × α)`
holding the own entries: first-occurrence lookup, and insertion that
overwrites an existing key in place or appends a fresh one, which models
own-property definition as performed by object literals, spread and
`Object.fromEntries`. Where the source uses operations that consult the
prototype chain of a plain object — the `in` operator, `[]` property reads,
`??=`, and the `[[Set]]` steps of `Object.assign` — the model accounts for the
inherited members of `Object.prototype` through `protoProps`: `in` is true and
reads are non-nullish for names like `toString`, and a `[[Set]]` of the key
`__proto__` hits the inherited accessor and creates no own entry.
-/

/-- First-occurrence lookup in an association list, `obj[k]` on a JS object. -/
def lookupKey {α : Type} (m : List (String × α)) (k : String) : Option α :=
  (m.find? (fun p => p.1 == k)).map (fun p => p.2)

/-- Own-key membership, the `Object.hasOwn(obj, k)` test. -/
def hasKeyL {α : Type} (m : List (String × α)) (k : String) : Bool :=
  m.any (fun p => p.1 == k)

/-- `obj[k] = v` on a JS object: overwrite the key in place or append it. -/
def objInsert {α : Type} (m : List (String × α)) (k : String) (v : α) :
    List (String × α) :=
  if hasKeyL m k then m.map (fun p => if p.1 == k then (k, v) else p)
  else m ++ [(k, v)]

/-- `Object.fromEntries` / object-literal construction from an entry list. -/
def fromEntriesJs {α : Type} (l : List (String × α)) : List (String × α) :=
  l.foldl (fun m kv => objInsert m kv.1 kv.2) []

/-- JS object spread `\x7b ...a, ...b \x7d`: b's entries overwrite a's. -/
def mergeObj {α : Type} (a b : List (String × α)) : List (String × α) :=
  fromEntriesJs (a ++ b)

/-- Update the value stored at key `k` in place, leaving other entries alone. -/
def mapVal {α : Type} (m : List (String × α)) (k : String) (f : α → α) :
    List (String × α) :=
  m.map (fun p => if p.1 == k then (p.1, f p.2) else p)

/-- Append the entry `(k, d)` when the key has no own entry yet. -/
def ensureKey {α : Type} (m : List (String × α)) (k : String) (d : α) :
    List (String × α) :=
  if hasKeyL m k then m else m ++ [(k, d)]

/-- The own property names of `Object.prototype`, inherited by every plain
object: `in`-tests and `[]` reads on a plain object that miss every own key
fall back to these (all non-nullish; `__proto__` is the one accessor). -/
def protoProps : List String :=
  ["constructor", "hasOwnProperty", "isPrototypeOf", "propertyIsEnumerable",
   "toLocaleString", "toString", "valueOf", "__proto__", "__defineGetter__",
   "__defineSetter__", "__lookupGetter__", "__lookupSetter__"]

/-- The JS `k in obj` test on a plain object: an own key or an inherited
`Object.prototype` member. -/
def jsIn {α : Type} (m : List (String × α)) (k : String) : Bool :=
  hasKeyL m k || protoProps.contains k

/-! ## Plugin runtime (`runPlugins` in `src/utils/plugins.ts`) -/

/-- The validated Vitesse configuration produced by `VitesseConfigSchema`.
Only the `prerender` flag is inspected by the runtime itself; the remaining
validated fields are carried opaquely. -/
structure VitesseConfig where
  prerender : Bool
  fields : List (String × String)
deriving DecidableEq, Repr

/-- The errors the plugin runtime can surface: a friendly validation error
(from `parseWithFriendlyErrors`), a plain `Error` thrown by `updateConfig`,
or an `AstroError` with message and hint. -/
inductive RunErr where
  | validation (msg : String)
  | pluginError (msg : String)
  | astroError (msg hint : String)
deriving DecidableEq, Repr

/-- The user-supplied configuration object, a JS object with opaque values. -/
abbrev UserCfg := List (String × String)

/-- A validator: `parseWithFriendlyErrors(VitesseConfigSchema, cfg, message)`.
The schema itself lives outside this core, so the runtime is parametric in it. -/
abbrev Validator := String → UserCfg → Except RunErr VitesseConfig

/-- Translation fragments handed to `injectTranslations`: locale → key → text. -/
abbrev Fragments := List (String × List (String × String))

/-- Accumulated plugin translations, keyed by locale. -/
abbrev PluginTranslations := List (String × List (String × String))

/-- One `[[Set]]` step of `Object.assign` with a string value: an ordinary key
creates or overwrites the own entry, but the key `__proto__` reaches the
inherited accessor, which ignores non-object values — no own entry appears
and the value is lost. -/
def jsSetKey (m : List (String × String)) (k v : String) :
    List (String × String) :=
  if k == "__proto__" then m else objInsert m k v

/-- `Object.assign(target, src)`: copy `src`'s entries into `target` in order
with `[[Set]]` semantics, overwriting per key. -/
def assignKeys (m : List (String × String)) (kvs : List (String × String)) :
    List (String × String) :=
  kvs.foldl (fun acc kv => jsSetKey acc kv.1 kv.2) m

/-- `pluginTranslations[locale] ??= \x7b\x7d`: the read walks the prototype
chain, so when the locale is named after an inherited `Object.prototype`
member the read is non-nullish and no own entry is created. -/
def jsEnsureKey (m : PluginTranslations) (k : String) : PluginTranslations :=
  if hasKeyL m k || protoProps.contains k then m else m ++ [(k, [])]

/-- `Object.assign(pluginTranslations[locale]!, localeTranslations)`: with an
own entry for the locale, that entry is updated in place; otherwise the read
produced the inherited `Object.prototype` member and it is that object which
is mutated, leaving the table itself unchanged. -/
def jsAssignAt (m : PluginTranslations) (k : String)
    (kvs : List (String × String)) : PluginTranslations :=
  if hasKeyL m k then mapVal m k (fun lm => assignKeys lm kvs) else m

/-- The body of `injectTranslations`: for each locale entry of the fragments,
`pluginTranslations[locale] ??= \x7b\x7d` then
`Object.assign(pluginTranslations[locale], localeTranslations)`. -/
def injectT (tbl : PluginTranslations) (fs : Fragments) : PluginTranslations :=
  fs.foldl (fun acc lf => jsAssignAt (jsEnsureKey acc lf.1) lf.1 lf.2) tbl

/-- One observable interaction of a plugin's `setup` callback with the runtime.
`tryUpdateConfig` models a (trusted) setup body that calls `updateConfig`
inside its own `try/catch` and keeps going when the call throws. -/
inductive PluginAction where
  | updateConfig (newCfg : UserCfg)
  | tryUpdateConfig (newCfg : UserCfg)
  | addIntegration (integ : String)
  | injectTranslations (fragments : Fragments)

/-- A configured plugin: its `name` and the interactions its `setup` performs,
in program order. -/
structure Plugin where
  name : String
  setupActions : List PluginAction

/-- The runtime state closed over by the callbacks handed to each plugin. -/
structure RunState where
  userConfig : UserCfg
  vitesseConfig : VitesseConfig
  integrations : List String
  pluginTranslations : PluginTranslations
deriving DecidableEq, Repr

/-- The value returned by `runPlugins` on success. -/
structure RunResult where
  integrations : List String
  vitesseConfig : VitesseConfig
  pluginTranslations : PluginTranslations
deriving DecidableEq, Repr

/-- Message of the `Error` thrown when a plugin touches the plugins key. -/
def pluginsKeyMsg (name : String) : String :=
  "The '" ++ name ++ "' plugin tried to update the 'plugins' config key which is not supported."

/-- Context label used when re-validating a config updated by plugin `name`. -/
def updCtx (name : String) : String :=
  "Invalid config update provided by the '" ++ name ++ "' plugin"

/-- Context label used when validating the initial user configuration. -/
def initCtx : String := "Invalid config passed to vitesse integration"

/-- The `AstroError` raised for the static-output / prerender conflict. -/
def conflictErr : RunErr :=
  .astroError
    "Vitesse’s `prerender: false` option requires `output: \"hybrid\"` or `\"server\"` in your Astro config."
    ("Either set `output` in your Astro config or set `prerender: true` in the Vitesse options.\n\n"
      ++ "Learn more about rendering modes in the Astro docs: https://docs.astro.build/en/basics/rendering-modes/")

/-- The `updateConfig` callback for plugin `name`: reject a plugins-key update,
otherwise shallow-merge, re-validate, and only then install both the merged
user config and the re-validated config. -/
def updateConfigImpl (v : Validator) (name : String) (st : RunState)
    (newCfg : UserCfg) : Except RunErr RunState :=
  if hasKeyL newCfg "plugins" then
    .error (.pluginError (pluginsKeyMsg name))
  else
    match v (updCtx name) (mergeObj st.userConfig newCfg) with
    | .error e => .error e
    | .ok merged =>
      .ok { st with
            userConfig := mergeObj st.userConfig newCfg
            vitesseConfig := merged }

/-- Effect of a single interaction of plugin `name`'s setup on the run state. -/
def runAction (v : Validator) (name : String) (st : RunState) :
    PluginAction → Except RunErr RunState
  | .updateConfig n => updateConfigImpl v name st n
  | .tryUpdateConfig n =>
    match updateConfigImpl v name st n with
    | .ok st' => .ok st'
    | .error _ => .ok st
  | .addIntegration i => .ok { st with integrations := st.integrations ++ [i] }
  | .injectTranslations fs =>
    .ok { st with pluginTranslations := injectT st.pluginTranslations fs }

/-- Run the interactions of one plugin's setup in order; an uncaught throw
aborts the whole run. -/
def runActions (v : Validator) (name : String) (st : RunState) :
    List PluginAction → Except RunErr RunState
  | [] => .ok st
  | a :: rest =>
    match runAction v name st a with
    | .error e => .error e
    | .ok st' => runActions v name st' rest

/-- The `for (const \x7b name, hooks: \x7b setup \x7d \x7d of pluginsConfig)` loop:
plugins run strictly in list order, each awaited before the next. -/
def runPluginsLoop (v : Validator) (st : RunState) :
    List Plugin → Except RunErr RunState
  | [] => .ok st
  | p :: rest =>
    match runActions v p.name st p.setupActions with
    | .error e => .error e
    | .ok st' => runPluginsLoop v st' rest

/-- `runPlugins`: validate the initial config, run every plugin in order, then
reject the `output: "static"` / `prerender: false` combination, and finally
return the accumulated integrations, config, and plugin translations. -/
def runPlugins (v : Validator) (userCfg : UserCfg) (plugins : List Plugin)
    (output : String) : Except RunErr RunResult :=
  match v initCtx userCfg with
  | .error e => .error e
  | .ok cfg0 =>
    match runPluginsLoop v ⟨userCfg, cfg0, [], []⟩ plugins with
    | .error e => .error e
    | .ok st =>
      if output == "static" && !st.vitesseConfig.prerender then
        .error conflictErr
      else
        .ok ⟨st.integrations, st.vitesseConfig, st.pluginTranslations⟩

/-! ## Virtual module registry (`src/integrations/virtual-user-config.ts`) -/

/-- JS `s.startsWith(pre)`, computed on the character lists. -/
def strStarts (s pre : String) : Bool := pre.data.isPrefixOf s.data

/-- JS `s.endsWith(suf)`, computed on the character lists. -/
def strEnds (s suf : String) : Bool := suf.data.isSuffixOf s.data

/-- JS `s.slice(0, -n)`: the string without its last `n` characters. -/
def strDropRight (s : String) (n : Nat) : String :=
  ⟨s.data.take (s.data.length - n)⟩

/-- Split a character list at every occurrence of the separator `c`. -/
def splitChar (c : Char) : List Char → List (List Char)
  | [] => [[]]
  | ch :: rest =>
    let r := splitChar c rest
    if ch == c then [] :: r
    else
      match r with
      | [] => [[ch]]
      | seg :: segs => (ch :: seg) :: segs

/-- Hex digit used by the `\uXXXX` escapes of `JSON.stringify`. -/
def hexDigit (n : Nat) : Char :=
  if n < 10 then Char.ofNat (48 + n) else Char.ofNat (87 + n)

/-- Escape of one character inside a `JSON.stringify`'d string. -/
def jsonEscapeChar (c : Char) : String :=
  if c == '"' then "\\\""
  else if c == '\\' then "\\\\"
  else if c == '\n' then "\\n"
  else if c == '\r' then "\\r"
  else if c == '\t' then "\\t"
  else if c == '\x08' then "\\b"
  else if c == '\x0c' then "\\f"
  else if c.toNat < 32 then
    "\\u00" ++ String.singleton (hexDigit (c.toNat / 16))
      ++ String.singleton (hexDigit (c.toNat % 16))
  else String.singleton c

/-- `JSON.stringify` applied to a string: a double-quoted escaped literal. -/
def jsonQuote (s : String) : String :=
  "\"" ++ String.join (s.data.map jsonEscapeChar) ++ "\""

/-- Modelled from `node:url`'s `fileURLToPath`: strip the `file://` scheme,
leaving the absolute path (percent-decoding is not modelled). -/
def furlToPath (u : String) : String :=
  if strStarts u "file://" then ⟨u.data.drop 7⟩ else u

/-- Split a path into its non-empty `/`-separated segments. -/
def splitSegs (p : String) : List String :=
  ((splitChar '/' p.data).map String.mk).filter (fun s => s ≠ "")

/-- One step of path normalization: `.` is dropped, `..` pops a segment. -/
def normStep (acc : List String) (seg : String) : List String :=
  if seg == "." then acc
  else if seg == ".." then acc.dropLast
  else acc ++ [seg]

/-- Modelled from `node:path`'s `resolve(base, id)` for an absolute `base`:
concatenate the segments and normalize `.` and `..`, yielding an absolute
path. -/
def nodeResolve (base id : String) : String :=
  "/" ++ String.intercalate "/" ((splitSegs base ++ splitSegs id).foldl normStep [])

/-- The registry's `resolveId` helper: a relative id (leading `.`) is resolved
against `base` (a file URL) into an absolute path, a bare package id is kept
as is; either way the result is emitted as a JSON string literal. -/
def resolveIdWith (base id : String) : String :=
  jsonQuote (if strStarts id "." then nodeResolve (furlToPath base) id else id)

/-- The logo configuration: the single-image form (a `src` field) or the
light/dark pair form. -/
inductive VmLogo where
  | single (src : String)
  | pair (dark light : String)

/-- The inputs `vitePluginVitesseUserConfig` builds its module map from: the
config fields the module bodies inspect, the build context directories, and
the `JSON.stringify` serializations (produced externally) embedded verbatim. -/
structure VmBuildInputs where
  root : String
  srcDir : String
  configJson : String
  contextJson : String
  ptJson : String
  customCss : List String
  logo : Option VmLogo
  components : List (String × String)

/-- Source text of the `virtual:vitesse/user-images` module, one of three
shapes according to the logo configuration. -/
def userImagesModule (logo : Option VmLogo) (root : String) : String :=
  match logo with
  | none => "export const logos = \x7b\x7d;"
  | some (.single src) =>
    "import src from " ++ resolveIdWith root src
      ++ "; export const logos = \x7b dark: src, light: src \x7d;"
  | some (.pair dark light) =>
    "import dark from " ++ resolveIdWith root dark
      ++ "; import light from " ++ resolveIdWith root light
      ++ "; export const logos = \x7b dark, light \x7d;"

/-- Source text of the `virtual:vitesse/collection-config` module, which
imports the user's collection file resolved against `srcDir`. -/
def collectionConfigModule (srcDir : String) : String :=
  "let userCollections;\n      try \x7b\n        userCollections = (await import("
    ++ resolveIdWith srcDir "./content/config.ts"
    ++ ")).collections;\n      \x7d catch \x7b\x7d\n      export const collections = userCollections;"

/-- The six fixed entries of the `modules` object literal, in program order. -/
def fixedModules (inp : VmBuildInputs) : List (String × String) :=
  [("virtual:vitesse/user-config", "export default " ++ inp.configJson),
   ("virtual:vitesse/project-context", "export default " ++ inp.contextJson),
   ("virtual:vitesse/user-css",
     String.join (inp.customCss.map (fun id => "import " ++ resolveIdWith inp.root id ++ ";"))),
   ("virtual:vitesse/user-images", userImagesModule inp.logo inp.root),
   ("virtual:vitesse/collection-config", collectionConfigModule inp.srcDir),
   ("virtual:vitesse/plugin-translations", "export default " ++ inp.ptJson)]

/-- `virtualComponentModules`: one generated module per component override. -/
def componentModules (inp : VmBuildInputs) : List (String × String) :=
  inp.components.map (fun np =>
    ("virtual:vitesse/components/" ++ np.1,
     "export \x7b default \x7d from " ++ resolveIdWith inp.root np.2 ++ ";"))

/-- The `modules` object: the fixed entries followed by the spread of the
component modules, with JS object-literal key semantics. -/
def modulesMap (inp : VmBuildInputs) : List (String × String) :=
  fromEntriesJs (fixedModules inp ++ componentModules inp)

/-- `resolveVirtualModuleId`: prepend the reserved `\0` marker. -/
def vmInternal (id : String) : String := "\x00" ++ id

/-- The `resolveId` hook: `if (id in modules) return resolveVirtualModuleId(id)`.
The `in` operator walks the prototype chain, so the hook also answers for the
inherited `Object.prototype` member names. -/
def resolveIdHook (mods : List (String × String)) (id : String) : Option String :=
  if jsIn mods id then some (vmInternal id) else none

/-- `resolutionMap`: internal `\0`-prefixed names back to their public form. -/
def resMap (mods : List (String × String)) : List (String × String) :=
  mods.map (fun p => (vmInternal p.1, p.1))

/-- What the property read `obj[k]` on a string-valued plain object yields: an
own entry's string, an inherited `Object.prototype` member (a truthy
non-string object), or `undefined`. -/
inductive JsPropRead where
  | strVal (s : String)
  | protoMember
  | undefv

/-- `obj[k]` on a string-valued plain object, prototype chain included. -/
def jsRead (m : List (String × String)) (k : String) : JsPropRead :=
  match lookupKey m k with
  | some v => .strVal v
  | none => if protoProps.contains k then .protoMember else .undefv

/-- The `load` hook: read `resolution = resolutionMap[id]`; `undefined` is
falsy and yields nothing; an own entry holds a public name (non-empty, hence
truthy) whose module text is then read out of `modules`. When a read finds an
inherited `Object.prototype` member instead, that member is truthy but
coercing it to a property key (`"function toString() ..."`,
`"[object Object]"`) matches neither an own key nor an inherited member, so
`modules[resolution]` is `undefined` and the hook returns nothing; for this
registry's maps every `resolutionMap` value is an own key of `modules`, so
the inherited-member case never arises in the second read. -/
def loadHook (mods : List (String × String)) (id : String) : Option String :=
  match jsRead (resMap mods) id with
  | .strVal r =>
    if r == "" then none
    else
      match jsRead mods r with
      | .strVal v => some v
      | .protoMember => none
      | .undefv => none
  | .protoMember => none
  | .undefv => none

/-! ## Translation loader (`createTranslationSystemFromFs`) -/

/-- A thrown file-system / parse error: its message and, when the error object
carries one, its `code` property. -/
structure FsErr where
  code : Option String
  msg : String
deriving DecidableEq, Repr

/-- The `e instanceof Error && 'code' in e && e.code === 'ENOENT'` test. -/
def isEnoent (e : FsErr) : Bool := e.code == some "ENOENT"

/-- Parsed contents of one locale file. -/
abbrev TransData := List (String × String)

/-- The file-system operations the loader performs on the i18n directory:
`fs.readdirSync(i18nDir)` and `fs.readFileSync(new URL(file, i18nDir))`. -/
structure FsModel where
  readdir : Except FsErr (List String)
  readFile : String → Except FsErr String

/-- A `JSON.parse` for locale files; a failure is a thrown `SyntaxError`. -/
abbrev JsonParse := String → Except FsErr TransData

/-- Handle one directory entry: read the file, parse it, and pair the data
with the file name minus its `.json` extension (`file.slice(0, -5)`). -/
def readLocaleFile (fs : FsModel) (parse : JsonParse) (file : String) :
    Except FsErr (String × TransData) :=
  match fs.readFile file with
  | .error e => .error e
  | .ok raw =>
    match parse raw with
    | .error e => .error e
    | .ok data => .ok (strDropRight file 5, data)

/-- Map `readLocaleFile` over the kept entries; the first throw aborts. -/
def readLocaleFiles (fs : FsModel) (parse : JsonParse) :
    List String → Except FsErr (List (String × TransData))
  | [] => .ok []
  | f :: rest =>
    match readLocaleFile fs parse f with
    | .error e => .error e
    | .ok entry =>
      match readLocaleFiles fs parse rest with
      | .error e => .error e
      | .ok entries => .ok (entry :: entries)

/-- The body of the `try` block: list the i18n directory, keep the `.json`
entries, and load each of them into a locale table. -/
def tryLoadTranslations (fs : FsModel) (parse : JsonParse) :
    Except FsErr (List (String × TransData)) :=
  match fs.readdir with
  | .error e => .error e
  | .ok files => readLocaleFiles fs parse (files.filter (fun f => strEnds f ".json"))

/-- `createTranslationSystemFromFs`: build the on-disk table inside a `try`;
an `ENOENT` failure anywhere leaves the table empty, any other failure is
rethrown; the table is finally handed to the (external) translation-system
constructor `cts`. -/
def createTranslationSystemFromFs {α : Type} (cts : List (String × TransData) → α)
    (fs : FsModel) (parse : JsonParse) : Except FsErr α :=
  match tryLoadTranslations fs parse with
  | .ok entries => .ok (cts (fromEntriesJs entries))
  | .error e => if isEnoent e then .ok (cts []) else .error e

/-! ## Navigation item schemas (`src/schemas/navbar.ts`) -/

/-- A JavaScript value, as far as the navbar schemas inspect one. -/
inductive JsVal where
  | str (s : String)
  | num (n : Int)
  | boolean (b : Bool)
  | undefv
  | nullv
  | arr (xs : List JsVal)
  | obj (fields : List (String × JsVal))

/-- A value admitted by `linkHTMLAttributesSchema`'s union. -/
inductive AttrVal where
  | str (s : String)
  | num (n : Int)
  | boolean (b : Bool)
  | undefv
deriving DecidableEq, Repr

/-- Output of `NavBarLinkItemSchema` (the external link item). -/
structure LinkItem where
  label : String
  translations : List (String × String)
  link : String
  attrs : List (String × AttrVal)
deriving DecidableEq, Repr

/-- Output of `InternalNavBarLinkItemSchema` (the internal link item). -/
structure InternalLinkItem where
  label : Option String
  translations : List (String × String)
  slug : String
  attrs : List (String × AttrVal)
deriving DecidableEq, Repr

/-- Output of the `NavBarItemSchema` union. -/
inductive NavBarItem where
  | link (i : LinkItem)
  | internal (i : InternalLinkItem)
deriving DecidableEq, Repr

/-- Reading a field of an object: a missing key acts as `undefined`. -/
def getField (fields : List (String × JsVal)) (k : String) : JsVal :=
  match lookupKey fields k with
  | some v => v
  | none => .undefv

/-- `z.string()` applied to a field value. -/
def parseStr (v : JsVal) : Except String String :=
  match v with
  | .str s => .ok s
  | _ => .error "Expected string"

/-- `z.record(z.string())`: an object whose values are all strings. -/
def parseStrRecord (v : JsVal) : Except String (List (String × String)) :=
  match v with
  | .obj fields =>
    fields.mapM (fun kv => (parseStr kv.2).map (fun s => (kv.1, s)))
  | _ => .error "Expected object"

/-- `z.union([z.string(), z.number(), z.boolean(), z.undefined()])`. -/
def parseAttrVal (v : JsVal) : Except String AttrVal :=
  match v with
  | .str s => .ok (.str s)
  | .num n => .ok (.num n)
  | .boolean b => .ok (.boolean b)
  | .undefv => .ok .undefv
  | _ => .error "Invalid attribute value"

/-- `linkHTMLAttributesSchema`: a record of attribute values. -/
def parseAttrRecord (v : JsVal) : Except String (List (String × AttrVal)) :=
  match v with
  | .obj fields =>
    fields.mapM (fun kv => (parseAttrVal kv.2).map (fun a => (kv.1, a)))
  | _ => .error "Expected object"

/-- A `.default(\x7b\x7d)`-wrapped record: a missing / undefined field becomes
the empty record. -/
def withEmptyDefault {α : Type} (p : JsVal → Except String (List (String × α)))
    (v : JsVal) : Except String (List (String × α)) :=
  match v with
  | .undefv => .ok []
  | _ => p v

/-- A `.partial`/optional string field: missing or undefined maps to `none`. -/
def parseOptStr (v : JsVal) : Except String (Option String) :=
  match v with
  | .undefv => .ok none
  | .str s => .ok (some s)
  | _ => .error "Expected string"

/-- `InternalNavBarLinkItemSchema.parse`: optional `label`, defaulted
`translations`, required `slug`, defaulted `attrs`; unknown keys stripped. -/
def parseInternalItem (v : JsVal) : Except String InternalLinkItem :=
  match v with
  | .obj fields =>
    match parseOptStr (getField fields "label") with
    | .error e => .error e
    | .ok label =>
      match withEmptyDefault parseStrRecord (getField fields "translations") with
      | .error e => .error e
      | .ok translations =>
        match parseStr (getField fields "slug") with
        | .error e => .error e
        | .ok slug =>
          match withEmptyDefault parseAttrRecord (getField fields "attrs") with
          | .error e => .error e
          | .ok attrs => .ok ⟨label, translations, slug, attrs⟩
  | _ => .error "Expected object"

/-- `NavBarLinkItemSchema.parse`: required `label` and `link`, defaulted
`translations` and `attrs`, and `.strict()` rejection of unknown keys. -/
def parseLinkItem (v : JsVal) : Except String LinkItem :=
  match v with
  | .obj fields =>
    if fields.any (fun kv =>
        kv.1 != "label" && kv.1 != "translations" && kv.1 != "link" && kv.1 != "attrs") then
      .error "Unrecognized key"
    else
      match parseStr (getField fields "label") with
      | .error e => .error e
      | .ok label =>
        match withEmptyDefault parseStrRecord (getField fields "translations") with
        | .error e => .error e
        | .ok translations =>
          match parseStr (getField fields "link") with
          | .error e => .error e
          | .ok link =>
            match withEmptyDefault parseAttrRecord (getField fields "attrs") with
            | .error e => .error e
            | .ok attrs => .ok ⟨label, translations, link, attrs⟩
  | _ => .error "Expected object"

/-- `InternalNavBarLinkItemShorthandSchema.parse`: a bare string `slug` is
transformed through `InternalNavBarLinkItemSchema.parse(\x7b slug \x7d)`. -/
def parseShorthandItem (v : JsVal) : Except String InternalLinkItem :=
  match v with
  | .str s => parseInternalItem (.obj [("slug", .str s)])
  | _ => .error "Expected string"

/-- `NavBarItemSchema.parse`: the union tries its members in declared order. -/
def parseNavBarItem (v : JsVal) : Except String NavBarItem :=
  match parseLinkItem v with
  | .ok i => .ok (.link i)
  | .error _ =>
    match parseInternalItem v with
    | .ok i => .ok (.internal i)
    | .error _ => (parseShorthandItem v).map .internal

/-! ## Association-list lemmas -/

/-- The value of the last entry for key `x`, scanning from the right. -/
def lastIn {α : Type} : List (String × α) → String → Option α
  | [], _ => none
  | kv :: rest, x =>
    match lastIn rest x with
    | some v => some v
    | none => if kv.1 == x then some kv.2 else none

theorem lookupKey_cons {α : Type} (a : String × α) (m : List (String × α)) (x : String) :
    lookupKey (a :: m) x = if a.1 = x then some a.2 else lookupKey m x := by
  by_cases h : a.1 = x <;> simp [lookupKey, List.find?_cons, h]

theorem hasKeyL_cons {α : Type} (a : String × α) (m : List (String × α)) (x : String) :
    hasKeyL (a :: m) x = ((a.1 == x) || hasKeyL m x) := by
  simp [hasKeyL]

theorem hasKeyL_lookupKey {α : Type} (m : List (String × α)) (x : String) :
    hasKeyL m x = (lookupKey m x).isSome := by
  induction m with
  | nil => rfl
  | cons a rest ih =>
    rw [hasKeyL_cons, lookupKey_cons]
    by_cases h : a.1 = x <;> simp [h, ih]

theorem lookupKey_append_single {α : Type} (m : List (String × α)) (k : String) (v : α)
    (x : String) :
    lookupKey (m ++ [(k, v)]) x =
      match lookupKey m x with
      | some w => some w
      | none => if k = x then some v else none := by
  induction m with
  | nil => by_cases h : k = x <;> simp [lookupKey, List.find?_cons, h]
  | cons a rest ih =>
    rw [List.cons_append, lookupKey_cons, lookupKey_cons]
    by_cases h : a.1 = x <;> simp [h, ih]

theorem lookupKey_map_ow {α : Type} (m : List (String × α)) (k : String) (v : α)
    (x : String) :
    lookupKey (m.map (fun p => if p.1 == k then (k, v) else p)) x =
      if x = k then (if hasKeyL m k then some v else none) else lookupKey m x := by
  induction m with
  | nil => by_cases hx : x = k <;> simp [lookupKey, hasKeyL, hx]
  | cons a rest ih =>
    obtain ⟨a1, a2⟩ := a
    simp only [List.map_cons, beq_iff_eq] at ih ⊢
    by_cases hak : a1 = k
    · subst hak
      rw [if_pos rfl, lookupKey_cons, hasKeyL_cons, lookupKey_cons]
      by_cases hx : x = a1
      · subst hx; simp [ih]
      · simp [Ne.symm hx, hx, ih]
    · rw [if_neg hak, lookupKey_cons, hasKeyL_cons, lookupKey_cons]
      by_cases hx : x = k
      · subst hx
        have hax : ¬ a1 = x := hak
        simp [hax, hak, ih]
      · by_cases hax : a1 = x <;> simp [hax, hx, hak, ih]

theorem lookupKey_objInsert {α : Type} (m : List (String × α)) (k : String) (v : α)
    (x : String) :
    lookupKey (objInsert m k v) x = if x = k then some v else lookupKey m x := by
  rw [objInsert]
  by_cases hm : hasKeyL m k = true
  · rw [if_pos hm, lookupKey_map_ow, hm]
    by_cases hx : x = k <;> simp [hx]
  · rw [if_neg hm, lookupKey_append_single]
    rw [hasKeyL_lookupKey] at hm
    by_cases hx : x = k
    · subst hx
      cases h : lookupKey m x
      · simp [h]
      · rw [h] at hm; simp at hm
    · cases h : lookupKey m x <;> simp [h, hx, Ne.symm hx]

theorem hasKeyL_objInsert {α : Type} (m : List (String × α)) (k : String) (v : α)
    (x : String) :
    hasKeyL (objInsert m k v) x = (hasKeyL m x || (x == k)) := by
  rw [hasKeyL_lookupKey, lookupKey_objInsert, hasKeyL_lookupKey]
  by_cases hx : x = k <;> simp [hx]

theorem lookupKey_foldl_ins {α : Type} (l : List (String × α)) (m : List (String × α))
    (x : String) :
    lookupKey (l.foldl (fun acc kv => objInsert acc kv.1 kv.2) m) x =
      match lastIn l x with
      | some v => some v
      | none => lookupKey m x := by
  induction l generalizing m with
  | nil => simp [lastIn]
  | cons kv rest ih =>
    rw [List.foldl_cons, ih, lastIn]
    cases h : lastIn rest x with
    | some v => simp
    | none =>
      simp only [lookupKey_objInsert]
      by_cases hx : x = kv.1
      · simp [hx]
      · simp [hx, Ne.symm hx]

theorem hasKeyL_foldl_ins {α : Type} (l : List (String × α)) (m : List (String × α))
    (x : String) :
    hasKeyL (l.foldl (fun acc kv => objInsert acc kv.1 kv.2) m) x =
      (hasKeyL m x || l.any (fun p => p.1 == x)) := by
  induction l generalizing m with
  | nil => simp
  | cons kv rest ih =>
    rw [List.foldl_cons, ih, hasKeyL_objInsert, List.any_cons]
    have hcomm : (x == kv.1) = (kv.1 == x) := by
      by_cases h : x = kv.1
      · simp [h]
      · simp [h, Ne.symm h]
    rw [hcomm, Bool.or_assoc]

theorem lookupKey_fromEntriesJs {α : Type} (l : List (String × α)) (x : String) :
    lookupKey (fromEntriesJs l) x = lastIn l x := by
  rw [fromEntriesJs, lookupKey_foldl_ins]
  cases lastIn l x <;> simp [lookupKey]

theorem hasKeyL_fromEntriesJs {α : Type} (l : List (String × α)) (x : String) :
    hasKeyL (fromEntriesJs l) x = l.any (fun p => p.1 == x) := by
  rw [fromEntriesJs, hasKeyL_foldl_ins]
  simp [hasKeyL]

theorem lookupKey_mapVal {α : Type} (m : List (String × α)) (k : String) (f : α → α)
    (x : String) :
    lookupKey (mapVal m k f) x =
      if x = k then (lookupKey m x).map f else lookupKey m x := by
  induction m with
  | nil => by_cases hx : x = k <;> simp [mapVal, lookupKey, hx]
  | cons a rest ih =>
    obtain ⟨a1, a2⟩ := a
    simp only [mapVal, List.map_cons, beq_iff_eq] at ih ⊢
    by_cases hak : a1 = k
    · subst hak
      rw [if_pos rfl, lookupKey_cons, lookupKey_cons]
      by_cases hx : x = a1
      · subst hx; simp [ih]
      · simp [Ne.symm hx, hx, ih]
    · rw [if_neg hak, lookupKey_cons, lookupKey_cons]
      by_cases hx : x = k
      · subst hx
        have hax : ¬ a1 = x := hak
        simp [hax, ih]
      · by_cases hax : a1 = x <;> simp [hax, hx, ih]

theorem lookupKey_ensureKey {α : Type} (m : List (String × α)) (k : String) (d : α)
    (x : String) :
    lookupKey (ensureKey m k d) x =
      if x = k then some ((lookupKey m k).getD d) else lookupKey m x := by
  rw [ensureKey]
  by_cases hm : hasKeyL m k = true
  · rw [if_pos hm, hasKeyL_lookupKey] at *
    by_cases hx : x = k
    · subst hx
      cases h : lookupKey m x
      · rw [h] at hm; simp at hm
      · simp [h]
    · simp [hx]
  · rw [if_neg hm, lookupKey_append_single]
    rw [hasKeyL_lookupKey] at hm
    by_cases hx : x = k
    · subst hx
      cases h : lookupKey m x
      · simp [h]
      · rw [h] at hm; simp at hm
    · cases h : lookupKey m x <;> simp [h, hx, Ne.symm hx]

theorem hasKeyL_mapVal {α : Type} (m : List (String × α)) (k : String) (f : α → α)
    (x : String) :
    hasKeyL (mapVal m k f) x = hasKeyL m x := by
  rw [hasKeyL_lookupKey, hasKeyL_lookupKey, lookupKey_mapVal]
  by_cases hx : x = k <;> simp [hx]

theorem hasKeyL_ensureKey {α : Type} (m : List (String × α)) (k : String) (d : α)
    (x : String) :
    hasKeyL (ensureKey m k d) x = (hasKeyL m x || (x == k)) := by
  rw [hasKeyL_lookupKey, hasKeyL_lookupKey, lookupKey_ensureKey]
  by_cases hx : x = k <;> simp [hx]

/-! ## Accumulation of injected translations -/

/-- Symmetry of string `==`. -/
theorem strBeqComm (a b : String) : (a == b) = (b == a) := by
  by_cases h : a = b
  · simp [h]
  · simp [h, Ne.symm h]

/-- Lookup of a `(locale, key)` pair in a two-level translation table. -/
def lookup2 (tbl : PluginTranslations) (loc key : String) : Option String :=
  match lookupKey tbl loc with
  | some m => lookupKey m key
  | none => none

/-- Spec side: the last value one `injectTranslations` call writes for
`(loc, key)` — later fragments of the same call overwrite earlier ones. -/
def fragLast : Fragments → String → String → Option String
  | [], _, _ => none
  | lf :: rest, loc, key =>
    match fragLast rest loc key with
    | some v => some v
    | none => if lf.1 == loc then lastIn lf.2 key else none

/-- Spec side: the last value any call of a sequence writes for `(loc, key)`
— a later call overwrites an earlier one. -/
def callsLast : List Fragments → String → String → Option String
  | [], _, _ => none
  | fs :: rest, loc, key =>
    match callsLast rest loc key with
    | some v => some v
    | none => fragLast fs loc key

theorem lookupKey_assignKeys (m kvs : List (String × String)) (x : String)
    (hx : (x == "__proto__") = false) :
    lookupKey (assignKeys m kvs) x =
      match lastIn kvs x with
      | some v => some v
      | none => lookupKey m x := by
  induction kvs generalizing m with
  | nil => simp [assignKeys, lastIn]
  | cons kv rest ih =>
    rw [show assignKeys m (kv :: rest) = assignKeys (jsSetKey m kv.1 kv.2) rest from rfl,
      ih, lastIn]
    have hxx : ¬ x = "__proto__" := by simpa using hx
    by_cases hp : kv.1 = "__proto__"
    · have h1 : (kv.1 == x) = false := by
        rw [hp]
        exact beq_eq_false_iff_ne.mpr (fun hh => hxx hh.symm)
      rw [show jsSetKey m kv.1 kv.2 = m from by
        rw [jsSetKey, if_pos (beq_iff_eq.mpr hp)]]
      cases hr : lastIn rest x with
      | some v => rfl
      | none => simp [h1]
    · rw [show jsSetKey m kv.1 kv.2 = objInsert m kv.1 kv.2 from by
        rw [jsSetKey, if_neg (by simp [hp])]]
      cases hr : lastIn rest x with
      | some v => rfl
      | none =>
        rw [lookupKey_objInsert]
        by_cases hx2 : x = kv.1
        · simp [hx2]
        · simp [hx2, Ne.symm hx2]

theorem lookup2_injectStep (T : PluginTranslations) (l : String)
    (kvs : List (String × String)) (loc key : String)
    (hkey : (key == "__proto__") = false) :
    lookup2 (mapVal (ensureKey T l []) l (fun m => assignKeys m kvs)) loc key =
      if l == loc then
        match lastIn kvs key with
        | some v => some v
        | none => lookup2 T loc key
      else lookup2 T loc key := by
  by_cases hl : loc = l
  · rw [hl]
    rw [lookup2, lookupKey_mapVal, if_pos rfl, lookupKey_ensureKey, if_pos rfl,
      Option.map_some']
    simp only [beq_self_eq_true, if_true]
    rw [lookupKey_assignKeys _ _ _ hkey]
    cases h : lookupKey T l with
    | none =>
      simp only [h, Option.getD_none]
      cases hk : lastIn kvs key with
      | some v => rfl
      | none => simp only [lookup2, h]; rfl
    | some m =>
      simp only [h, Option.getD_some]
      cases hk : lastIn kvs key with
      | some v => rfl
      | none => simp only [lookup2, h]
  · have hbl : ¬ (l == loc) = true := by simp [Ne.symm hl]
    rw [lookup2, lookupKey_mapVal, if_neg hl, lookupKey_ensureKey, if_neg hl,
      if_neg hbl, lookup2]

theorem lookup2_injectStepJs (T : PluginTranslations) (l : String)
    (kvs : List (String × String)) (loc key : String)
    (hloc : protoProps.contains loc = false)
    (hkey : (key == "__proto__") = false) :
    lookup2 (jsAssignAt (jsEnsureKey T l) l kvs) loc key =
      if l == loc then
        match lastIn kvs key with
        | some v => some v
        | none => lookup2 T loc key
      else lookup2 T loc key := by
  by_cases hl : l = loc
  · have hcl : protoProps.contains l = false := by rw [hl]; exact hloc
    have he : jsEnsureKey T l = ensureKey T l [] := by
      rw [jsEnsureKey, ensureKey, hcl, Bool.or_false]
    have ha : hasKeyL (ensureKey T l []) l = true := by
      rw [hasKeyL_ensureKey]
      simp
    rw [he, jsAssignAt, if_pos ha]
    exact lookup2_injectStep T l kvs loc key hkey
  · have h1 : lookupKey (jsAssignAt (jsEnsureKey T l) l kvs) loc
        = lookupKey (jsEnsureKey T l) loc := by
      rw [jsAssignAt]
      by_cases hk : hasKeyL (jsEnsureKey T l) l = true
      · rw [if_pos hk, lookupKey_mapVal, if_neg (fun hh => hl hh.symm)]
      · rw [if_neg hk]
    have h2 : lookupKey (jsEnsureKey T l) loc = lookupKey T loc := by
      rw [jsEnsureKey]
      by_cases hc : (hasKeyL T l || protoProps.contains l) = true
      · rw [if_pos hc]
      · rw [if_neg hc, lookupKey_append_single]
        cases hx : lookupKey T loc with
        | some v => rfl
        | none => simp [hl]
    have hbl : (l == loc) = false := beq_eq_false_iff_ne.mpr hl
    rw [lookup2, h1, h2, hbl]
    simp [lookup2]

theorem lookup2_injectT (T : PluginTranslations) (fs : Fragments) (loc key : String)
    (hloc : protoProps.contains loc = false)
    (hkey : (key == "__proto__") = false) :
    lookup2 (injectT T fs) loc key =
      match fragLast fs loc key with
      | some v => some v
      | none => lookup2 T loc key := by
  induction fs generalizing T with
  | nil => simp [injectT, fragLast]
  | cons lf rest ih =>
    rw [injectT, List.foldl_cons]
    rw [show (rest.foldl (fun acc lf => jsAssignAt (jsEnsureKey acc lf.1) lf.1 lf.2)
        (jsAssignAt (jsEnsureKey T lf.1) lf.1 lf.2))
      = injectT (jsAssignAt (jsEnsureKey T lf.1) lf.1 lf.2) rest from rfl]
    rw [ih, lookup2_injectStepJs _ _ _ _ _ hloc hkey, fragLast]
    cases h : fragLast rest loc key with
    | some v => simp
    | none =>
      simp only []
      by_cases hl : (lf.1 == loc) = true
      · rw [if_pos hl, if_pos hl]
      · simp [hl]

theorem hasKeyL_jsAssignAt (M : PluginTranslations) (l : String)
    (kvs : List (String × String)) (x : String) :
    hasKeyL (jsAssignAt M l kvs) x = hasKeyL M x := by
  rw [jsAssignAt]
  by_cases hk : hasKeyL M l = true
  · rw [if_pos hk, hasKeyL_mapVal]
  · rw [if_neg hk]

theorem hasKeyL_jsEnsureKey (T : PluginTranslations) (l x : String)
    (hx : protoProps.contains x = false) :
    hasKeyL (jsEnsureKey T l) x = (hasKeyL T x || (x == l)) := by
  rw [jsEnsureKey]
  by_cases hxl : x = l
  · subst hxl
    rw [hx, Bool.or_false]
    by_cases hk : hasKeyL T x = true
    · rw [if_pos hk, hk]
      simp
    · have hkf : hasKeyL T x = false := by
        cases hh : hasKeyL T x
        · rfl
        · exact absurd hh hk
      rw [if_neg hk, hkf]
      rw [hasKeyL_lookupKey, lookupKey_append_single]
      rw [hasKeyL_lookupKey] at hkf
      cases hy : lookupKey T x with
      | some v => rw [hy] at hkf; simp at hkf
      | none => simp
  · have h2 : (x == l) = false := beq_eq_false_iff_ne.mpr hxl
    rw [h2, Bool.or_false]
    by_cases hc : (hasKeyL T l || protoProps.contains l) = true
    · rw [if_pos hc]
    · rw [if_neg hc]
      rw [hasKeyL_lookupKey, hasKeyL_lookupKey, lookupKey_append_single]
      cases hy : lookupKey T x with
      | some v => rfl
      | none => simp [Ne.symm hxl]

theorem hasKeyL_injectT (T : PluginTranslations) (fs : Fragments) (loc : String)
    (hloc : protoProps.contains loc = false) :
    hasKeyL (injectT T fs) loc = (hasKeyL T loc || fs.any (fun lf => lf.1 == loc)) := by
  induction fs generalizing T with
  | nil => simp [injectT]
  | cons lf rest ih =>
    rw [injectT, List.foldl_cons]
    rw [show (rest.foldl (fun acc lf => jsAssignAt (jsEnsureKey acc lf.1) lf.1 lf.2)
        (jsAssignAt (jsEnsureKey T lf.1) lf.1 lf.2))
      = injectT (jsAssignAt (jsEnsureKey T lf.1) lf.1 lf.2) rest from rfl]
    rw [ih, hasKeyL_jsAssignAt, hasKeyL_jsEnsureKey T lf.1 loc hloc, List.any_cons,
      strBeqComm loc lf.1, Bool.or_assoc]

theorem lookup2_foldl_injectT (calls : List Fragments) (T : PluginTranslations)
    (loc key : String) (hloc : protoProps.contains loc = false)
    (hkey : (key == "__proto__") = false) :
    lookup2 (calls.foldl injectT T) loc key =
      match callsLast calls loc key with
      | some v => some v
      | none => lookup2 T loc key := by
  induction calls generalizing T with
  | nil => simp [callsLast]
  | cons fs rest ih =>
    rw [List.foldl_cons, ih, lookup2_injectT _ _ _ _ hloc hkey, callsLast]
    cases h : callsLast rest loc key with
    | some v => simp
    | none => simp only []

theorem hasKeyL_foldl_injectT (calls : List Fragments) (T : PluginTranslations)
    (loc : String) (hloc : protoProps.contains loc = false) :
    hasKeyL (calls.foldl injectT T) loc =
      (hasKeyL T loc || calls.any (fun fs => fs.any (fun lf => lf.1 == loc))) := by
  induction calls generalizing T with
  | nil => simp
  | cons fs rest ih =>
    rw [List.foldl_cons, ih, hasKeyL_injectT _ _ _ hloc, List.any_cons, Bool.or_assoc]

/-! ## Claim C4 -/

/-- C4 (amended): across a sequence of `injectTranslations` calls in execution
order, for every locale that is not an inherited `Object.prototype` member
name and every message key other than `__proto__`, the accumulated table maps
the `(locale, key)` pair to the last value written for it — a later call's
value overwrites an earlier call's — the locale's entry exists exactly when
some fragment of some call mentions that locale, and in particular, when two
plugins inject the same locale and key, the later plugin's value is the one
present. A locale named after an inherited member (`toString`, `__proto__`,
…) never receives an entry, and a `__proto__` message key is swallowed by
the inherited accessor. -/
theorem injectTranslations_accumulation (calls : List Fragments) (loc key : String)
    (hloc : protoProps.contains loc = false)
    (hkey : (key == "__proto__") = false) :
    lookup2 (calls.foldl injectT []) loc key = callsLast calls loc key
    ∧ hasKeyL (calls.foldl injectT []) loc
        = calls.any (fun fs => fs.any (fun lf => lf.1 == loc))
    ∧ ∀ v1 v2 : String,
        lookup2 (injectT (injectT [] [(loc, [(key, v1)])]) [(loc, [(key, v2)])]) loc key
          = some v2 := by
  refine ⟨?_, ?_, ?_⟩
  · rw [lookup2_foldl_injectT _ _ _ _ hloc hkey]
    cases h : callsLast calls loc key with
    | some v => rfl
    | none => simp [lookup2, lookupKey]
  · rw [hasKeyL_foldl_injectT _ _ _ hloc]
    simp [hasKeyL]
  · intro v1 v2
    have h := lookup2_foldl_injectT [[(loc, [(key, v1)])], [(loc, [(key, v2)])]] []
      loc key hloc hkey
    simp only [List.foldl_cons, List.foldl_nil] at h
    rw [h]
    simp [callsLast, fragLast, lastIn]

/-- Counterexample to C4 as stated: a fragment for the locale `toString`
creates no entry at all, because `??=` finds the inherited
`Object.prototype.toString`, and a `__proto__` message key inside an ordinary
locale is swallowed by the inherited accessor during `Object.assign`. -/
theorem injectTranslations_protoLocale_counterexample :
    injectT [] [("toString", [("k", "v")])] = []
    ∧ hasKeyL (injectT [] [("toString", [("k", "v")])]) "toString" = false
    ∧ lookup2 (injectT [] [("toString", [("k", "v")])]) "toString" "k" = none
    ∧ lookup2 (injectT [] [("en", [("__proto__", "v")])]) "en" "__proto__" = none :=
  ⟨rfl, rfl, rfl, rfl⟩

/-- Witness for C4: an ordinary locale and key accumulate with
last-writer-wins across two calls. -/
theorem injectTranslations_accumulation_witness :
    protoProps.contains "en" = false
    ∧ ("title" == "__proto__") = false
    ∧ lookup2 ([[("en", [("title", "v1")])], [("en", [("title", "v2")])]].foldl
          injectT []) "en" "title"
        = callsLast [[("en", [("title", "v1")])], [("en", [("title", "v2")])]]
            "en" "title"
    ∧ lookup2 (injectT (injectT [] [("en", [("title", "v1")])])
          [("en", [("title", "v2")])]) "en" "title" = some "v2" :=
  ⟨rfl, rfl,
    (injectTranslations_accumulation
        [[("en", [("title", "v1")])], [("en", [("title", "v2")])]] "en" "title"
        rfl rfl).1,
    (injectTranslations_accumulation
        [[("en", [("title", "v1")])], [("en", [("title", "v2")])]] "en" "title"
        rfl rfl).2.2 "v1" "v2"⟩

/-! ## Plugin runtime: error propagation lemmas -/

theorem runActions_append (v : Validator) (n : String) (st : RunState)
    (l1 l2 : List PluginAction) :
    runActions v n st (l1 ++ l2) =
      match runActions v n st l1 with
      | .error e => .error e
      | .ok st' => runActions v n st' l2 := by
  induction l1 generalizing st with
  | nil => rfl
  | cons a rest ih =>
    rw [List.cons_append]
    simp only [runActions]
    cases runAction v n st a with
    | error e => rfl
    | ok st' => exact ih st'

theorem runPluginsLoop_append (v : Validator) (st : RunState) (l1 l2 : List Plugin) :
    runPluginsLoop v st (l1 ++ l2) =
      match runPluginsLoop v st l1 with
      | .error e => .error e
      | .ok st' => runPluginsLoop v st' l2 := by
  induction l1 generalizing st with
  | nil => rfl
  | cons p rest ih =>
    rw [List.cons_append]
    simp only [runPluginsLoop]
    cases runActions v p.name st p.setupActions with
    | error e => rfl
    | ok st' => exact ih st'

/-! ## Claim C1 -/

/-- C1: if a plugin's setup reaches an `updateConfig` call whose partial config
contains the `plugins` key, the whole run aborts with the error naming that
plugin — the run's result is that error, so no
`\x7b integrations, finalConfig, pluginTranslations \x7d` value is returned. -/
theorem runPlugins_pluginsKey_aborts (v : Validator) (uc : UserCfg)
    (ps1 : List Plugin) (nm : String) (as1 as2 : List PluginAction) (bad : UserCfg)
    (ps2 : List Plugin) (out : String) (cfg0 : VitesseConfig) (st st2 : RunState)
    (hbad : hasKeyL bad "plugins" = true)
    (h0 : v initCtx uc = .ok cfg0)
    (h1 : runPluginsLoop v ⟨uc, cfg0, [], []⟩ ps1 = .ok st)
    (h2 : runActions v nm st as1 = .ok st2) :
    runPlugins v uc (ps1 ++ ⟨nm, as1 ++ .updateConfig bad :: as2⟩ :: ps2) out
      = .error (.pluginError (pluginsKeyMsg nm)) := by
  rw [runPlugins, h0]
  simp only [runPluginsLoop_append, h1]
  simp only [runPluginsLoop, runActions_append, h2]
  simp only [runActions, runAction, updateConfigImpl, hbad, if_true]

/-- Witness for C1: a plugin whose setup updates the `plugins` key aborts a
concrete run. -/
theorem runPlugins_pluginsKey_aborts_witness :
    hasKeyL [("plugins", "x")] "plugins" = true
    ∧ (fun _ _ => .ok ⟨true, []⟩ : Validator) initCtx [] = .ok ⟨true, []⟩
    ∧ runPluginsLoop (fun _ _ => .ok ⟨true, []⟩) ⟨[], ⟨true, []⟩, [], []⟩ []
        = .ok ⟨[], ⟨true, []⟩, [], []⟩
    ∧ runActions (fun _ _ => .ok ⟨true, []⟩) "test-plugin" ⟨[], ⟨true, []⟩, [], []⟩ []
        = .ok ⟨[], ⟨true, []⟩, [], []⟩
    ∧ runPlugins (fun _ _ => .ok ⟨true, []⟩) []
        [⟨"test-plugin", [.updateConfig [("plugins", "x")]]⟩] "server"
        = .error (.pluginError (pluginsKeyMsg "test-plugin")) :=
  ⟨rfl, rfl, rfl, rfl,
    runPlugins_pluginsKey_aborts (fun _ _ => .ok ⟨true, []⟩) [] [] "test-plugin" [] []
      [("plugins", "x")] [] "server" ⟨true, []⟩ ⟨[], ⟨true, []⟩, [], []⟩
      ⟨[], ⟨true, []⟩, [], []⟩ rfl rfl rfl rfl⟩

/-! ## Claim C2 -/

/-- C2: once every plugin's setup has completed with final state `st`,
`runPlugins` throws the configuration-conflict `AstroError` exactly when the
host output mode is `"static"` and the final validated config's `prerender`
flag is `false`; otherwise it returns the accumulated result normally. -/
theorem runPlugins_conflict (v : Validator) (uc : UserCfg) (plugins : List Plugin)
    (out : String) (cfg0 : VitesseConfig) (st : RunState)
    (h0 : v initCtx uc = .ok cfg0)
    (h1 : runPluginsLoop v ⟨uc, cfg0, [], []⟩ plugins = .ok st) :
    runPlugins v uc plugins out =
      (if out == "static" && !st.vitesseConfig.prerender then .error conflictErr
       else .ok ⟨st.integrations, st.vitesseConfig, st.pluginTranslations⟩) := by
  simp only [runPlugins, h0, h1]

/-- Witness for C2: with `output: "static"` and a final `prerender` of
`false`, a concrete run throws the conflict error; with `prerender` `true`
it returns normally. -/
theorem runPlugins_conflict_witness :
    (fun _ _ => .ok ⟨false, []⟩ : Validator) initCtx [] = .ok ⟨false, []⟩
    ∧ runPluginsLoop (fun _ _ => .ok ⟨false, []⟩) ⟨[], ⟨false, []⟩, [], []⟩ []
        = .ok ⟨[], ⟨false, []⟩, [], []⟩
    ∧ runPlugins (fun _ _ => .ok ⟨false, []⟩) [] [] "static" = .error conflictErr
    ∧ runPlugins (fun _ _ => .ok ⟨true, []⟩) [] [] "static"
        = .ok ⟨[], ⟨true, []⟩, []⟩
    ∧ runPlugins (fun _ _ => .ok ⟨false, []⟩) [] [] "server"
        = .ok ⟨[], ⟨false, []⟩, []⟩ := by
  refine ⟨rfl, rfl, ?_, ?_, ?_⟩
  · rw [runPlugins_conflict (fun _ _ => .ok ⟨false, []⟩) [] [] "static" ⟨false, []⟩
      ⟨[], ⟨false, []⟩, [], []⟩ rfl rfl]
    rfl
  · rw [runPlugins_conflict (fun _ _ => .ok ⟨true, []⟩) [] [] "static" ⟨true, []⟩
      ⟨[], ⟨true, []⟩, [], []⟩ rfl rfl]
    rfl
  · rw [runPlugins_conflict (fun _ _ => .ok ⟨false, []⟩) [] [] "server" ⟨false, []⟩
      ⟨[], ⟨false, []⟩, [], []⟩ rfl rfl]
    rfl

/-! ## Claim C9 -/

/-- C9: `updateConfig` is atomic with respect to re-validation failure — when
validating the merged config fails, the error is raised with the run state
untouched (a setup that catches the throw observes exactly the pre-call
state), and the merged config is installed only when validation succeeds. -/
theorem updateConfig_atomic (v : Validator) (nm : String) (st : RunState)
    (newCfg : UserCfg) (hk : hasKeyL newCfg "plugins" = false) :
    (∀ e, v (updCtx nm) (mergeObj st.userConfig newCfg) = .error e →
        updateConfigImpl v nm st newCfg = .error e
        ∧ runAction v nm st (.tryUpdateConfig newCfg) = .ok st)
    ∧ (∀ c, v (updCtx nm) (mergeObj st.userConfig newCfg) = .ok c →
        updateConfigImpl v nm st newCfg
          = .ok ⟨mergeObj st.userConfig newCfg, c, st.integrations,
                 st.pluginTranslations⟩) := by
  constructor
  · intro e he
    constructor
    · simp [updateConfigImpl, hk, he]
    · simp [runAction, updateConfigImpl, hk, he]
  · intro c hc
    simp [updateConfigImpl, hk, hc]

/-- Witness for C9: a failing re-validation leaves a concrete pre-call state
in place for a setup that catches the throw. -/
theorem updateConfig_atomic_witness :
    hasKeyL [("title", "x")] "plugins" = false
    ∧ (fun _ _ => .error (.validation "boom") : Validator) (updCtx "p")
        (mergeObj [] [("title", "x")]) = .error (.validation "boom")
    ∧ runAction (fun _ _ => .error (.validation "boom")) "p" ⟨[], ⟨true, []⟩, [], []⟩
        (.tryUpdateConfig [("title", "x")]) = .ok ⟨[], ⟨true, []⟩, [], []⟩ :=
  ⟨rfl, rfl,
    ((updateConfig_atomic (fun _ _ => .error (.validation "boom")) "p"
        ⟨[], ⟨true, []⟩, [], []⟩ [("title", "x")] rfl).1
      (.validation "boom") rfl).2⟩

/-! ## Claim C7 -/

/-- C7: the translation loader recovers from a missing `content/i18n/`
directory (an `ENOENT` from `readdirSync`) by proceeding with the empty
on-disk table, while every non-`ENOENT` failure of the load — for example a
`JSON.parse` syntax error — propagates unchanged to the caller. -/
theorem translationLoader_error_policy {α : Type}
    (cts : List (String × TransData) → α) (fs : FsModel) (parse : JsonParse)
    (e : FsErr) :
    (fs.readdir = .error e → isEnoent e = true →
        createTranslationSystemFromFs cts fs parse = .ok (cts []))
    ∧ (tryLoadTranslations fs parse = .error e → isEnoent e = false →
        createTranslationSystemFromFs cts fs parse = .error e) := by
  constructor
  · intro hd he
    have ht : tryLoadTranslations fs parse = .error e := by
      rw [tryLoadTranslations, hd]
    simp [createTranslationSystemFromFs, ht, he]
  · intro ht he
    simp [createTranslationSystemFromFs, ht, he]

/-- Witness for C7: a missing directory yields the empty table with no error,
and a malformed JSON file makes the load fail with that same error. -/
theorem translationLoader_error_policy_witness :
    (⟨.error ⟨some "ENOENT", "missing dir"⟩, fun _ => .ok ""⟩ : FsModel).readdir
        = .error ⟨some "ENOENT", "missing dir"⟩
    ∧ isEnoent ⟨some "ENOENT", "missing dir"⟩ = true
    ∧ createTranslationSystemFromFs id
        ⟨.error ⟨some "ENOENT", "missing dir"⟩, fun _ => .ok ""⟩
        (fun _ => .ok []) = .ok []
    ∧ tryLoadTranslations ⟨.ok ["en.json"], fun _ => .ok "not json"⟩
        (fun _ => .error ⟨none, "SyntaxError"⟩) = .error ⟨none, "SyntaxError"⟩
    ∧ isEnoent ⟨none, "SyntaxError"⟩ = false
    ∧ createTranslationSystemFromFs id ⟨.ok ["en.json"], fun _ => .ok "not json"⟩
        (fun _ => .error ⟨none, "SyntaxError"⟩) = .error ⟨none, "SyntaxError"⟩ :=
  ⟨rfl, rfl,
    (translationLoader_error_policy id
        ⟨.error ⟨some "ENOENT", "missing dir"⟩, fun _ => .ok ""⟩ (fun _ => .ok [])
        ⟨some "ENOENT", "missing dir"⟩).1 rfl rfl,
    rfl, rfl,
    (translationLoader_error_policy id ⟨.ok ["en.json"], fun _ => .ok "not json"⟩
        (fun _ => .error ⟨none, "SyntaxError"⟩) ⟨none, "SyntaxError"⟩).2 rfl rfl⟩

/-! ## Claim C10 -/

/-- C10: the loader never returns a partial on-disk table — whenever the load
throws an `ENOENT`, whether from the directory listing or from reading any
individual locale file, every entry parsed so far is discarded and the
on-disk table handed to the constructor is the empty table. -/
theorem translationLoader_no_partial_table {α : Type}
    (cts : List (String × TransData) → α) (fs : FsModel) (parse : JsonParse)
    (e : FsErr) (ht : tryLoadTranslations fs parse = .error e)
    (he : isEnoent e = true) :
    createTranslationSystemFromFs cts fs parse = .ok (cts []) := by
  simp [createTranslationSystemFromFs, ht, he]

/-- Witness for C10: with the directory listing succeeding, `en.json` parsed,
and `fr.json` raising `ENOENT`, the resulting table is empty — the parsed
`en` entry is discarded. -/
theorem translationLoader_no_partial_table_witness :
    (⟨.ok ["en.json", "fr.json"],
        fun f => if f == "en.json" then .ok "EN" else .error ⟨some "ENOENT", "gone"⟩⟩
      : FsModel).readdir = .ok ["en.json", "fr.json"]
    ∧ readLocaleFile
        ⟨.ok ["en.json", "fr.json"],
          fun f => if f == "en.json" then .ok "EN" else .error ⟨some "ENOENT", "gone"⟩⟩
        (fun s => if s == "EN" then .ok [("k", "v")] else .error ⟨none, "SyntaxError"⟩)
        "en.json" = .ok ("en", [("k", "v")])
    ∧ tryLoadTranslations
        ⟨.ok ["en.json", "fr.json"],
          fun f => if f == "en.json" then .ok "EN" else .error ⟨some "ENOENT", "gone"⟩⟩
        (fun s => if s == "EN" then .ok [("k", "v")] else .error ⟨none, "SyntaxError"⟩)
        = .error ⟨some "ENOENT", "gone"⟩
    ∧ createTranslationSystemFromFs id
        ⟨.ok ["en.json", "fr.json"],
          fun f => if f == "en.json" then .ok "EN" else .error ⟨some "ENOENT", "gone"⟩⟩
        (fun s => if s == "EN" then .ok [("k", "v")] else .error ⟨none, "SyntaxError"⟩)
        = .ok [] :=
  ⟨rfl, rfl, rfl,
    translationLoader_no_partial_table id
      ⟨.ok ["en.json", "fr.json"],
        fun f => if f == "en.json" then .ok "EN" else .error ⟨some "ENOENT", "gone"⟩⟩
      (fun s => if s == "EN" then .ok [("k", "v")] else .error ⟨none, "SyntaxError"⟩)
      ⟨some "ENOENT", "gone"⟩ rfl rfl⟩

/-! ## Claim C8 -/

/-- C8: for every string `s`, validating the bare string as a navigation item
succeeds exactly as validating `\x7b slug: s \x7d` as an internal link item
does, and both produce the same normalized item — slug `s`, no label, empty
translations, empty attribute bag. -/
theorem navbar_string_shorthand (s : String) :
    parseNavBarItem (.str s) = .ok (.internal ⟨none, [], s, []⟩)
    ∧ parseInternalItem (.obj [("slug", .str s)]) = .ok ⟨none, [], s, []⟩ := by
  constructor <;> rfl

/-! ## Claim C5 -/

/-- C5: the registry's path-resolution rule — an id starting with `.` is
resolved against the base directory into an absolute path (leading `/`)
emitted as a string literal, and any other id is emitted unchanged as a
quoted bare-package reference. -/
theorem resolveId_path_rule (base id : String)
    (_hbase : strStarts (furlToPath base) "/" = true) :
    (strStarts id "." = true →
        resolveIdWith base id = jsonQuote (nodeResolve (furlToPath base) id)
        ∧ (nodeResolve (furlToPath base) id).data.head? = some '/')
    ∧ (strStarts id "." = false → resolveIdWith base id = jsonQuote id) := by
  constructor
  · intro h
    constructor
    · rw [resolveIdWith, if_pos h]
    · rw [nodeResolve, String.data_append]
      rfl
  · intro h
    rw [resolveIdWith, if_neg (by simp [h])]

/-- Witness for C5: `"./a.css"` against `file:///proj/` becomes the absolute
literal `"/proj/a.css"`, while `"my-pkg/style.css"` is emitted verbatim. -/
theorem resolveId_path_rule_witness :
    strStarts (furlToPath "file:///proj/") "/" = true
    ∧ strStarts "./a.css" "." = true
    ∧ resolveIdWith "file:///proj/" "./a.css" = "\"/proj/a.css\""
    ∧ strStarts "my-pkg/style.css" "." = false
    ∧ resolveIdWith "file:///proj/" "my-pkg/style.css" = "\"my-pkg/style.css\"" := by
  refine ⟨rfl, rfl, ?_, rfl, ?_⟩
  · rw [((resolveId_path_rule "file:///proj/" "./a.css" rfl).1 rfl).1]
    rfl
  · rw [(resolveId_path_rule "file:///proj/" "my-pkg/style.css" rfl).2 rfl]
    rfl

/-! ## Virtual module registry lemmas -/

theorem vmInternal_inj (a b : String) (h : vmInternal a = vmInternal b) : a = b := by
  apply String.ext
  have hd := congrArg String.data h
  rw [vmInternal, vmInternal, String.data_append, String.data_append] at hd
  exact List.append_cancel_left hd

theorem vmInternal_head (a : String) : (vmInternal a).data.head? = some '\x00' := by
  rw [vmInternal, String.data_append]
  rfl

theorem componentKey_head (n : String) :
    ("virtual:vitesse/components/" ++ n).data.head? = some 'v' := by
  rw [String.data_append]
  rfl

theorem fixed_key_head (inp : VmBuildInputs) (k : String)
    (h : (fixedModules inp).any (fun p => p.1 == k) = true) :
    k.data.head? = some 'v' := by
  simp only [fixedModules, List.any_cons, List.any_nil, Bool.or_eq_true, beq_iff_eq,
    Bool.false_eq_true, or_false] at h
  rcases h with h | h | h | h | h | h <;> (rw [← h]; rfl)

theorem comp_key_head (inp : VmBuildInputs) (k : String)
    (h : (componentModules inp).any (fun p => p.1 == k) = true) :
    k.data.head? = some 'v' := by
  rw [componentModules, List.any_map] at h
  obtain ⟨np, _, hnp⟩ := List.any_eq_true.mp h
  have : ("virtual:vitesse/components/" ++ np.1) = k := by
    simpa [beq_iff_eq] using hnp
  rw [← this]
  exact componentKey_head np.1

theorem modulesMap_key_head (inp : VmBuildInputs) (k : String)
    (h : hasKeyL (modulesMap inp) k = true) : k.data.head? = some 'v' := by
  rw [modulesMap, hasKeyL_fromEntriesJs, List.any_append, Bool.or_eq_true] at h
  rcases h with h | h
  · exact fixed_key_head inp k h
  · exact comp_key_head inp k h

theorem modulesMap_key_ne_empty (inp : VmBuildInputs) (k : String)
    (h : hasKeyL (modulesMap inp) k = true) : (k == "") = false := by
  have hh := modulesMap_key_head inp k h
  by_cases hk : k = ""
  · subst hk
    exact absurd hh (by decide)
  · simp [hk]

theorem protoProp_not_null_head (k : String) (h : protoProps.contains k = true) :
    ¬ k.data.head? = some '\x00' := by
  have hm : k ∈ protoProps := by simpa using h
  simp only [protoProps, List.mem_cons, List.not_mem_nil, or_false] at hm
  rcases hm with rfl | rfl | rfl | rfl | rfl | rfl | rfl | rfl | rfl | rfl | rfl | rfl <;>
    decide

theorem vmInternal_not_protoProp (a : String) :
    protoProps.contains (vmInternal a) = false := by
  cases hc : protoProps.contains (vmInternal a) with
  | false => rfl
  | true => exact absurd (vmInternal_head a) (protoProp_not_null_head _ hc)

theorem modulesMap_key_not_protoProp (inp : VmBuildInputs) (k : String)
    (h : hasKeyL (modulesMap inp) k = true) : protoProps.contains k = false := by
  cases hc : protoProps.contains k with
  | false => rfl
  | true =>
    exfalso
    have hm : k ∈ protoProps := by simpa using hc
    simp only [protoProps, List.mem_cons, List.not_mem_nil, or_false] at hm
    rw [modulesMap, hasKeyL_fromEntriesJs, List.any_append, Bool.or_eq_true] at h
    rcases h with h | h
    · simp only [fixedModules, List.any_cons, List.any_nil, Bool.or_eq_true, beq_iff_eq,
        Bool.false_eq_true, or_false] at h
      rcases h with h | h | h | h | h | h <;> (rw [← h] at hm; exact absurd hm (by decide))
    · rw [componentModules, List.any_map] at h
      obtain ⟨np, _, hnp⟩ := List.any_eq_true.mp h
      have hk : ("virtual:vitesse/components/" ++ np.1) = k := by
        simpa [beq_iff_eq] using hnp
      rcases hm with rfl | rfl | rfl | rfl | rfl | rfl | rfl | rfl | rfl | rfl | rfl | rfl <;>
        (have hd := congrArg String.data hk
         rw [String.data_append] at hd
         have hp := List.prefix_append "virtual:vitesse/components/".data np.1.data
         rw [hd] at hp
         exact absurd hp (by decide))

theorem lookup_resMap_internal (mods : List (String × String)) (n : String) :
    lookupKey (resMap mods) (vmInternal n) =
      if hasKeyL mods n then some n else none := by
  induction mods with
  | nil => simp [resMap, lookupKey, hasKeyL]
  | cons a rest ih =>
    rw [resMap, List.map_cons, lookupKey_cons, hasKeyL_cons]
    by_cases h : a.1 = n
    · simp [h]
    · have hne : ¬ vmInternal a.1 = vmInternal n := fun hh => h (vmInternal_inj _ _ hh)
      rw [if_neg hne]
      rw [resMap] at ih
      rw [ih]
      simp [h]

theorem lookup_resMap_some (mods : List (String × String)) (i r : String)
    (h : lookupKey (resMap mods) i = some r) :
    hasKeyL mods r = true ∧ i = vmInternal r := by
  induction mods with
  | nil => simp [resMap, lookupKey] at h
  | cons a rest ih =>
    rw [resMap, List.map_cons, lookupKey_cons] at h
    by_cases hc : vmInternal a.1 = i
    · rw [if_pos hc] at h
      have : a.1 = r := by simpa using h
      subst this
      refine ⟨by rw [hasKeyL_cons]; simp, hc.symm⟩
    · rw [if_neg hc] at h
      rw [resMap] at ih
      obtain ⟨h1, h2⟩ := ih h
      exact ⟨by rw [hasKeyL_cons, h1]; simp, h2⟩

theorem lookup_of_hasKey {α : Type} (m : List (String × α)) (k : String)
    (h : hasKeyL m k = true) : ∃ v, lookupKey m k = some v := by
  rw [hasKeyL_lookupKey] at h
  cases hx : lookupKey m k
  · rw [hx] at h
    simp at h
  · exact ⟨_, rfl⟩

/-! ## Claim C3 -/

/-- C3 (amended): `resolveId` answers with the `\0`-prefixed internal id
exactly when the JS `in` test passes — for the registry's public module names
and also for the inherited `Object.prototype` member names such as
`toString`; `load` answers with source text exactly for the prefixed form of
a public name: the resolution of a public name loads to that name's
registered source text, while the resolution of an inherited name, the
prefixed form of any other non-public id, an unprefixed public name, and an
already-prefixed id resolve or load to none as applicable. -/
theorem vm_registry_resolve_load (inp : VmBuildInputs) (n id : String) :
    (hasKeyL (modulesMap inp) id = true → jsIn (modulesMap inp) id = true)
    ∧ (jsIn (modulesMap inp) id = true →
        resolveIdHook (modulesMap inp) id = some (vmInternal id))
    ∧ (jsIn (modulesMap inp) id = false →
        resolveIdHook (modulesMap inp) id = none)
    ∧ (hasKeyL (modulesMap inp) n = true →
        loadHook (modulesMap inp) (vmInternal n) = lookupKey (modulesMap inp) n
        ∧ ∃ src, lookupKey (modulesMap inp) n = some src)
    ∧ (hasKeyL (modulesMap inp) n = false →
        loadHook (modulesMap inp) (vmInternal n) = none)
    ∧ (hasKeyL (modulesMap inp) n = true → loadHook (modulesMap inp) n = none)
    ∧ resolveIdHook (modulesMap inp) (vmInternal id) = none
    ∧ (∀ s, loadHook (modulesMap inp) id = some s →
        ∃ m, id = vmInternal m ∧ hasKeyL (modulesMap inp) m = true
          ∧ lookupKey (modulesMap inp) m = some s) := by
  refine ⟨?_, ?_, ?_, ?_, ?_, ?_, ?_, ?_⟩
  · intro h
    simp [jsIn, h]
  · intro h
    rw [resolveIdHook, if_pos h]
  · intro h
    rw [resolveIdHook, if_neg (by simp [h])]
  · intro h
    obtain ⟨src, hsrc⟩ := lookup_of_hasKey _ _ h
    refine ⟨?_, src, hsrc⟩
    have h1 : jsRead (resMap (modulesMap inp)) (vmInternal n) = .strVal n := by
      rw [jsRead, lookup_resMap_internal, if_pos h]
    have h2 : (n == "") = false := modulesMap_key_ne_empty inp n h
    have h3 : jsRead (modulesMap inp) n = .strVal src := by
      rw [jsRead, hsrc]
    simp only [loadHook, h1, h2, Bool.false_eq_true, if_false, h3]
    rw [hsrc]
  · intro h
    have h1 : jsRead (resMap (modulesMap inp)) (vmInternal n) = .undefv := by
      rw [jsRead, lookup_resMap_internal, if_neg (by simp [h]), vmInternal_not_protoProp]
      rfl
    simp [loadHook, h1]
  · intro h
    cases hx : lookupKey (resMap (modulesMap inp)) n with
    | some r =>
      obtain ⟨hk, hn⟩ := lookup_resMap_some _ _ _ hx
      have h1 := modulesMap_key_head inp n h
      rw [hn, vmInternal_head] at h1
      exact absurd h1 (by decide)
    | none =>
      have h1 : jsRead (resMap (modulesMap inp)) n = .undefv := by
        rw [jsRead, hx, modulesMap_key_not_protoProp inp n h]
        rfl
      simp [loadHook, h1]
  · have h1 : hasKeyL (modulesMap inp) (vmInternal id) = false := by
      cases hxx : hasKeyL (modulesMap inp) (vmInternal id) with
      | false => rfl
      | true =>
        have hh := modulesMap_key_head inp (vmInternal id) hxx
        rw [vmInternal_head] at hh
        exact absurd hh (by decide)
    have h2 := vmInternal_not_protoProp id
    rw [resolveIdHook, if_neg (by rw [jsIn, h1, h2]; simp)]
  · intro s hs
    cases hx : lookupKey (resMap (modulesMap inp)) id with
    | none =>
      have h1 : jsRead (resMap (modulesMap inp)) id
          = (if protoProps.contains id then .protoMember else .undefv) := by
        rw [jsRead, hx]
      rw [loadHook] at hs
      by_cases hp : protoProps.contains id = true
      · rw [h1, if_pos hp] at hs
        simp at hs
      · rw [h1, if_neg hp] at hs
        simp at hs
    | some r =>
      have h1 : jsRead (resMap (modulesMap inp)) id = .strVal r := by
        rw [jsRead, hx]
      obtain ⟨hk, hid⟩ := lookup_resMap_some _ _ _ hx
      have hr := modulesMap_key_ne_empty inp r hk
      cases hy : lookupKey (modulesMap inp) r with
      | some v =>
        have h2 : jsRead (modulesMap inp) r = .strVal v := by
          rw [jsRead, hy]
        simp only [loadHook, h1, hr, Bool.false_eq_true, if_false, h2,
          Option.some.injEq] at hs
        exact ⟨r, hid, hk, by rw [hy, hs]⟩
      | none =>
        obtain ⟨src, hsrc⟩ := lookup_of_hasKey _ _ hk
        rw [hy] at hsrc
        exact Option.noConfusion hsrc

/-- Counterexample to C3 as stated: `"toString"` is not one of the registry's
public virtual-module names, yet the JS `in` test finds the inherited
`Object.prototype.toString`, so `resolveId` answers with the prefixed
internal id — and `load` of that very id yields none, so `resolve` produced
an internal id its own `load` rejects. -/
theorem vm_registry_toString_counterexample :
    hasKeyL (modulesMap ⟨"file:///proj/", "file:///proj/src/", "CFG", "CTX", "PT",
        [], none, []⟩) "toString" = false
    ∧ resolveIdHook (modulesMap ⟨"file:///proj/", "file:///proj/src/", "CFG", "CTX",
        "PT", [], none, []⟩) "toString" = some (vmInternal "toString")
    ∧ loadHook (modulesMap ⟨"file:///proj/", "file:///proj/src/", "CFG", "CTX", "PT",
        [], none, []⟩) (vmInternal "toString") = none :=
  ⟨rfl, rfl, rfl⟩

/-- Witness for C3: concrete resolve / load round trips on a registry built
from a concrete configuration, including an inherited-name internal id that
loads to none. -/
theorem vm_registry_resolve_load_witness :
    hasKeyL (modulesMap ⟨"file:///proj/", "file:///proj/src/", "CFG", "CTX", "PT",
        [], none, []⟩) "virtual:vitesse/user-css" = true
    ∧ resolveIdHook (modulesMap ⟨"file:///proj/", "file:///proj/src/", "CFG", "CTX",
        "PT", [], none, []⟩) "virtual:vitesse/user-css"
        = some (vmInternal "virtual:vitesse/user-css")
    ∧ loadHook (modulesMap ⟨"file:///proj/", "file:///proj/src/", "CFG", "CTX", "PT",
        [], none, []⟩) (vmInternal "virtual:vitesse/user-css")
        = lookupKey (modulesMap ⟨"file:///proj/", "file:///proj/src/", "CFG", "CTX",
            "PT", [], none, []⟩) "virtual:vitesse/user-css"
    ∧ jsIn (modulesMap ⟨"file:///proj/", "file:///proj/src/", "CFG", "CTX", "PT",
        [], none, []⟩) "nope" = false
    ∧ resolveIdHook (modulesMap ⟨"file:///proj/", "file:///proj/src/", "CFG", "CTX",
        "PT", [], none, []⟩) "nope" = none
    ∧ hasKeyL (modulesMap ⟨"file:///proj/", "file:///proj/src/", "CFG", "CTX", "PT",
        [], none, []⟩) "toString" = false
    ∧ loadHook (modulesMap ⟨"file:///proj/", "file:///proj/src/", "CFG", "CTX", "PT",
        [], none, []⟩) (vmInternal "toString") = none :=
  ⟨rfl,
    (vm_registry_resolve_load ⟨"file:///proj/", "file:///proj/src/", "CFG", "CTX",
        "PT", [], none, []⟩ "x" "virtual:vitesse/user-css").2.1 rfl,
    ((vm_registry_resolve_load ⟨"file:///proj/", "file:///proj/src/", "CFG", "CTX",
        "PT", [], none, []⟩ "virtual:vitesse/user-css" "x").2.2.2.1 rfl).1,
    rfl,
    (vm_registry_resolve_load ⟨"file:///proj/", "file:///proj/src/", "CFG", "CTX",
        "PT", [], none, []⟩ "x" "nope").2.2.1 rfl,
    rfl,
    (vm_registry_resolve_load ⟨"file:///proj/", "file:///proj/src/", "CFG", "CTX",
        "PT", [], none, []⟩ "toString" "x").2.2.2.2.1 rfl⟩

/-! ## Claim C6 -/

theorem lastIn_append {α : Type} (l1 l2 : List (String × α)) (x : String) :
    lastIn (l1 ++ l2) x =
      match lastIn l2 x with
      | some v => some v
      | none => lastIn l1 x := by
  induction l1 with
  | nil =>
    cases h : lastIn l2 x <;> simp [lastIn, h]
  | cons kv rest ih =>
    rw [List.cons_append, lastIn, ih, lastIn]
    cases h : lastIn l2 x with
    | some v => rfl
    | none => rfl

theorem componentKey_ne_userImages (n : String) :
    ("virtual:vitesse/components/" ++ n) ≠ "virtual:vitesse/user-images" := by
  intro h
  have hd := congrArg String.data h
  rw [String.data_append] at hd
  have hlen := congrArg List.length hd
  rw [List.length_append] at hlen
  have h1 : "virtual:vitesse/components/".data.length = 27 := rfl
  have h2 : "virtual:vitesse/user-images".data.length = 27 := rfl
  rw [h1, h2] at hlen
  have hnil : n.data = [] := List.eq_nil_of_length_eq_zero (by omega)
  rw [hnil, List.append_nil] at hd
  exact absurd hd (by decide)

theorem lastIn_componentList_userImages (root : String)
    (comps : List (String × String)) :
    lastIn (comps.map (fun np =>
        ("virtual:vitesse/components/" ++ np.1,
         "export \x7b default \x7d from " ++ resolveIdWith root np.2 ++ ";")))
      "virtual:vitesse/user-images" = none := by
  induction comps with
  | nil => rfl
  | cons np rest ih =>
    rw [List.map_cons, lastIn, ih]
    simp [componentKey_ne_userImages np.1]

/-- C6: the user-images virtual module has exactly three source-text shapes
determined by the logo configuration — an empty `logos` export when no logo is
configured, one import aliased to both `dark` and `light` for the single-image
form, and two separate imports for the pair form. -/
theorem userImages_shapes (inp : VmBuildInputs) :
    lookupKey (modulesMap inp) "virtual:vitesse/user-images"
      = some (userImagesModule inp.logo inp.root)
    ∧ userImagesModule none inp.root = "export const logos = \x7b\x7d;"
    ∧ (∀ src, userImagesModule (some (.single src)) inp.root
        = "import src from " ++ resolveIdWith inp.root src
          ++ "; export const logos = \x7b dark: src, light: src \x7d;")
    ∧ (∀ dark light, userImagesModule (some (.pair dark light)) inp.root
        = "import dark from " ++ resolveIdWith inp.root dark
          ++ "; import light from " ++ resolveIdWith inp.root light
          ++ "; export const logos = \x7b dark, light \x7d;") := by
  refine ⟨?_, rfl, fun _ => rfl, fun _ _ => rfl⟩
  rw [modulesMap, lookupKey_fromEntriesJs, lastIn_append, componentModules,
    lastIn_componentList_userImages]
  rfl
